import Mathlib

/-
Shallow embedding of the batch-cloning engine of github-org-cloner
(src/github_org_cloner/cloner.py).

Modelling choices:
- A filesystem is the list of existing paths (a path is a list of
  components).  `Path.exists()` is membership; `mkdir(parents=True,
  exist_ok=True)` adds every prefix of the path that is absent.
- The external `git clone` subprocess is an oracle `Repository →
  GitBehavior` saying, for each repository, whether the invocation
  succeeds, exits non-zero with some stderr, times out, or raises
  FileNotFoundError (git binary missing).  A successful invocation
  creates the target directory.
- `clone_repository` returns `Except String Outcome` (the `.error` case
  models the raised CloneError), the new filesystem, and the list of
  clone-tool invocations performed (for frame properties).
- The sequential loop of `clone_all_repositories` models the Python
  local variable `repo_name` explicitly (the `except` branch writes
  `results[repo_name]`, the value left over from the previous
  iteration; if no iteration has bound it yet, an UnboundLocalError
  escapes).  The parallel branch is modelled by executing the items in
  an arbitrary completion order `order` (a permutation of the input),
  with the `except` branch keyed by `repo.name` as in the source.
- `max_workers` has no semantic effect in this serialized model of the
  thread pool; the simultaneity bound itself is a real-time property.
-/

namespace GithubOrgCloner

abbrev Path := List String

/-- A repository descriptor, as in github_client.Repository. -/
structure Repository where
  name : String
  clone_url : String
  ssh_url : String
  description : Option String
deriving Repr, DecidableEq

/-- Possible behaviours of one `git clone` subprocess invocation. -/
inductive GitBehavior where
  | success
  | exitErr (stderr : String)
  | timeout
  | notFound
deriving Repr, DecidableEq

abbrev Outcome := String × Bool × Option String

abbrev FS := List Path

abbrev Results := List (String × (Bool × Option String))

abbrev Call := String × Path

def pathExists (fs : FS) (p : Path) : Bool :=
  fs.contains p

def addPath (fs : FS) (p : Path) : FS :=
  if fs.contains p then fs else fs ++ [p]

def pathPrefixes (p : Path) : List Path :=
  (List.range p.length).map (fun i => p.take (i + 1))

def mkdirParents (fs : FS) (p : Path) : FS :=
  (pathPrefixes p).foldl addPath fs

def targetPath (base_dir : Path) (org_name : String) (repo_name : String) : Path :=
  base_dir ++ [org_name, repo_name]

def gitNotFoundMsg : String :=
  "git command not found. Please ensure git is installed and in your PATH."

/-- clone_repository from cloner.py: skip if the target exists, report in
dry-run mode, otherwise create the parent directory and run the tool. -/
def clone_repository (git : Repository → GitBehavior) (repo : Repository)
    (org_name : String) (base_dir : Path) (dry_run : Bool) (fs : FS) :
    Except String Outcome × FS × List Call :=
  let target := targetPath base_dir org_name repo.name
  if pathExists fs target then
    (.ok (repo.name, false, some "Already exists"), fs, [])
  else if dry_run then
    (.ok (repo.name, true, none), fs, [])
  else
    let fs1 := mkdirParents fs (base_dir ++ [org_name])
    match git repo with
    | .success =>
        (.ok (repo.name, true, none), addPath fs1 target, [(repo.clone_url, target)])
    | .exitErr stderr =>
        (.ok (repo.name, false, some ("Failed to clone " ++ repo.name ++ ": " ++ stderr)),
          fs1, [(repo.clone_url, target)])
    | .timeout =>
        (.ok (repo.name, false, some ("Clone timeout for " ++ repo.name ++ " (exceeded 5 minutes)")),
          fs1, [(repo.clone_url, target)])
    | .notFound =>
        (.error gitNotFoundMsg, fs1, [(repo.clone_url, target)])

/-- Python dict assignment `results[k] = v`: update in place if the key is
present, append otherwise. -/
def dinsert (rs : Results) (k : String) (v : Bool × Option String) : Results :=
  if rs.any (fun kv => kv.1 == k) then
    rs.map (fun kv => if kv.1 == k then (k, v) else kv)
  else
    rs ++ [(k, v)]

/-- Python dict lookup `results.get(k)`. -/
def dget (rs : Results) (k : String) : Option (Bool × Option String) :=
  (rs.find? (fun kv => kv.1 == k)).map (fun kv => kv.2)

/-- The sequential branch of clone_all_repositories.  The last argument
carries the current value of the Python local `repo_name` (none while it
is still unbound): on an exception, the handler stores the failure under
`results[repo_name]`, not `results[repo.name]`. -/
def clone_seq_loop (git : Repository → GitBehavior) (org_name : String)
    (base_dir : Path) (dry_run : Bool) :
    List Repository → Results → FS → List Call → Option String →
      Except String (Results × FS × List Call)
  | [], rs, fs, tr, _ => .ok (rs, fs, tr)
  | repo :: rest, rs, fs, tr, last =>
    match clone_repository git repo org_name base_dir dry_run fs with
    | (.ok (n, s, e), fs1, c) =>
        clone_seq_loop git org_name base_dir dry_run rest
          (dinsert rs n (s, e)) fs1 (tr ++ c) (some n)
    | (.error msg, fs1, c) =>
        match last with
        | some prev =>
            clone_seq_loop git org_name base_dir dry_run rest
              (dinsert rs prev (false, some msg)) fs1 (tr ++ c) (some prev)
        | none => .error "UnboundLocalError: local variable referenced before assignment"

/-- The parallel branch of clone_all_repositories, serialized in the
completion order of the futures.  The handler keys the failure by
`repo.name` (looked up in future_to_repo). -/
def clone_par_loop (git : Repository → GitBehavior) (org_name : String)
    (base_dir : Path) (dry_run : Bool) :
    List Repository → Results → FS → List Call → Results × FS × List Call
  | [], rs, fs, tr => (rs, fs, tr)
  | repo :: rest, rs, fs, tr =>
    match clone_repository git repo org_name base_dir dry_run fs with
    | (.ok (n, s, e), fs1, c) =>
        clone_par_loop git org_name base_dir dry_run rest
          (dinsert rs n (s, e)) fs1 (tr ++ c)
    | (.error msg, fs1, c) =>
        clone_par_loop git org_name base_dir dry_run rest
          (dinsert rs repo.name (false, some msg)) fs1 (tr ++ c)

/-- clone_all_repositories from cloner.py.  `order` is the completion
order of the futures in parallel mode (ignored in sequential mode);
`max_workers` bounds the pool size and has no further semantic effect in
this serialized model. -/
def clone_all_repositories (git : Repository → GitBehavior)
    (repos : List Repository) (org_name : String) (base_dir : Path)
    (parallel : Bool) (max_workers : Option Nat) (dry_run : Bool)
    (order : List Repository) (fs : FS) :
    Except String (Results × FS × List Call) :=
  if repos.isEmpty then .ok ([], fs, [])
  else
    let fs1 := if dry_run then fs else mkdirParents fs (base_dir ++ [org_name])
    if parallel then
      .ok (clone_par_loop git org_name base_dir dry_run order [] fs1 [])
    else
      clone_seq_loop git org_name base_dir dry_run repos [] fs1 [] none

/-! Concrete fixtures used by counterexample evaluations and witnesses. -/

def rAlpha : Repository := ⟨"alpha", "uA", "sA", none⟩

def rBravo : Repository := ⟨"bravo", "uB", "sB", none⟩

def rCharlie : Repository := ⟨"charlie", "uC", "sC", none⟩

def rDelta : Repository := ⟨"delta", "uD", "sD", none⟩

def rEcho : Repository := ⟨"echo", "uE", "sE", none⟩

def rDup1 : Repository := ⟨"dup", "u1", "s1", none⟩

def rDup2 : Repository := ⟨"dup", "u2", "s2", none⟩

/-- Environment where the git binary is missing for every invocation. -/
def envNF : Repository → GitBehavior := fun _ => .notFound

/-- Environment where cloning bravo succeeds and any other invocation
hits a missing git binary. -/
def envBravoThenNF : Repository → GitBehavior :=
  fun r => if r.name == "bravo" then .success else .notFound

/-- Environment where cloning delta succeeds and any other invocation
hits a missing git binary. -/
def envDeltaThenNF : Repository → GitBehavior :=
  fun r => if r.name == "delta" then .success else .notFound

/-- Environment where every invocation succeeds. -/
def envAllSuccess : Repository → GitBehavior := fun _ => .success

/-- Environment where the clone fetched from u1 succeeds and any other
invocation exits non-zero with stderr boom. -/
def envU1Success : Repository → GitBehavior :=
  fun r => if r.clone_url == "u1" then .success else .exitErr "boom"

/-- Claim C1: clone_repository does raise the distinguishable fatal
CloneError when the git binary is missing, but clone_all_repositories
does not propagate it: the blanket per-item exception handler absorbs it
as a per-item failed outcome and the batch returns normally (shown here
in parallel mode on a one-element batch). -/
theorem C1_fatal_error_absorbed :
    (clone_repository envNF rAlpha "org" ["base"] false []).1
        = .error gitNotFoundMsg ∧
      clone_all_repositories envNF [rAlpha] "org" ["base"] true none false [rAlpha] []
        = .ok ([("alpha", (false, some gitNotFoundMsg))],
            [["base"], ["base", "org"]],
            [("uA", ["base", "org", "alpha"])]) :=
  ⟨rfl, rfl⟩

/-- Claim C2: in sequential mode, when the single-item cloner raises for
descriptor charlie after bravo succeeded, the except handler stores the
failure under the stale local repo_name (bravo), overwriting bravo's
successful outcome and leaving charlie with no outcome at all. -/
theorem C2_seq_failure_keyed_by_stale_name :
    clone_all_repositories envBravoThenNF [rBravo, rCharlie] "org" ["base"]
        false none false [rBravo, rCharlie] []
      = .ok ([("bravo", (false, some gitNotFoundMsg))],
          [["base"], ["base", "org"], ["base", "org", "bravo"]],
          [("uB", ["base", "org", "bravo"]), ("uC", ["base", "org", "charlie"])]) :=
  rfl

/-- Claim C3: with two descriptors of distinct names (delta, echo), the
sequential batch can return a mapping with a single entry (echo's
failure is recorded under delta's stale name), so |BatchResult| is 1
while |descriptors| is 2. -/
theorem C3_result_smaller_than_input :
    ((clone_all_repositories envDeltaThenNF [rDelta, rEcho] "org" ["base"]
          false none false [rDelta, rEcho] []).toOption.map
        (fun z => z.1.length)) = some 1 ∧
      [rDelta, rEcho].length = 2 :=
  ⟨rfl, rfl⟩

/-- Claim C5: when the target path already exists, clone_repository
returns the skip outcome, leaves the filesystem untouched and performs
no clone-tool invocation, for either value of dry_run. -/
theorem C5_already_exists_skip
    (git : Repository → GitBehavior) (repo : Repository) (org_name : String)
    (base_dir : Path) (dry_run : Bool) (fs : FS)
    (h : pathExists fs (targetPath base_dir org_name repo.name) = true) :
    clone_repository git repo org_name base_dir dry_run fs
      = (.ok (repo.name, false, some "Already exists"), fs, []) := by
  simp [clone_repository, h]

/-- Witness for C5 at a concrete pre-existing target. -/
theorem C5_already_exists_skip_w :
    pathExists [["base", "org", "alpha"]] (targetPath ["base"] "org" rAlpha.name) = true ∧
      clone_repository envAllSuccess rAlpha "org" ["base"] false [["base", "org", "alpha"]]
        = (.ok (rAlpha.name, false, some "Already exists"), [["base", "org", "alpha"]], []) :=
  ⟨by decide, C5_already_exists_skip envAllSuccess rAlpha "org" ["base"] false
    [["base", "org", "alpha"]] (by decide)⟩

/-- Claim C8: the empty descriptor list yields the empty mapping at
once, with no directory creation and no tool invocation, in both
sequential and parallel modes and for either value of dry_run. -/
theorem C8_empty_input
    (git : Repository → GitBehavior) (org_name : String) (base_dir : Path)
    (parallel : Bool) (max_workers : Option Nat) (dry_run : Bool) (fs : FS) :
    clone_all_repositories git [] org_name base_dir parallel max_workers dry_run [] fs
      = .ok ([], fs, []) :=
  rfl

/-- In dry-run mode a single item returns an ok outcome and leaves the
filesystem and the invocation trace untouched. -/
lemma clone_repository_dry (git : Repository → GitBehavior) (repo : Repository)
    (org_name : String) (base_dir : Path) (fs : FS) :
    ∃ out, clone_repository git repo org_name base_dir true fs = (.ok out, fs, []) := by
  by_cases h : pathExists fs (targetPath base_dir org_name repo.name) = true
  · exact ⟨(repo.name, false, some "Already exists"), by simp [clone_repository, h]⟩
  · have h' : pathExists fs (targetPath base_dir org_name repo.name) = false := by
      simpa using h
    exact ⟨(repo.name, true, none), by simp [clone_repository, h']⟩

/-- The sequential loop in dry-run mode never errors, never changes the
filesystem and never invokes the tool. -/
lemma clone_seq_loop_dry (git : Repository → GitBehavior) (org_name : String)
    (base_dir : Path) (l : List Repository) :
    ∀ (rs : Results) (fs : FS) (tr : List Call) (last : Option String),
      ∃ rs', clone_seq_loop git org_name base_dir true l rs fs tr last = .ok (rs', fs, tr) := by
  induction l with
  | nil => intro rs fs tr last; exact ⟨rs, rfl⟩
  | cons repo rest ih =>
    intro rs fs tr last
    obtain ⟨out, hcr⟩ := clone_repository_dry git repo org_name base_dir fs
    obtain ⟨n, s, e⟩ := out
    obtain ⟨rs', hrec⟩ := ih (dinsert rs n (s, e)) fs tr (some n)
    refine ⟨rs', ?_⟩
    simp only [clone_seq_loop]
    rw [hcr]
    simpa [List.append_nil] using hrec

/-- The parallel loop in dry-run mode never changes the filesystem and
never invokes the tool. -/
lemma clone_par_loop_dry (git : Repository → GitBehavior) (org_name : String)
    (base_dir : Path) (l : List Repository) :
    ∀ (rs : Results) (fs : FS) (tr : List Call),
      ∃ rs', clone_par_loop git org_name base_dir true l rs fs tr = (rs', fs, tr) := by
  induction l with
  | nil => intro rs fs tr; exact ⟨rs, rfl⟩
  | cons repo rest ih =>
    intro rs fs tr
    obtain ⟨out, hcr⟩ := clone_repository_dry git repo org_name base_dir fs
    obtain ⟨n, s, e⟩ := out
    obtain ⟨rs', hrec⟩ := ih (dinsert rs n (s, e)) fs tr
    refine ⟨rs', ?_⟩
    simp only [clone_par_loop]
    rw [hcr]
    simpa [List.append_nil] using hrec

/-- Claim C4: with dry_run set, a non-pre-existing descriptor yields the
outcome (name, true, none) with no filesystem change and no tool
invocation, and the batch in either mode likewise leaves the filesystem
unchanged (in particular baseDir/orgName is not created) and invokes the
tool on nothing. -/
theorem C4_dry_run_no_effects
    (git : Repository → GitBehavior) (repo : Repository) (org_name : String)
    (base_dir : Path) (fs : FS)
    (h : pathExists fs (targetPath base_dir org_name repo.name) = false) :
    clone_repository git repo org_name base_dir true fs
        = (.ok (repo.name, true, none), fs, []) ∧
      (∀ (repos order : List Repository) (max_workers : Option Nat),
        ∃ rs, clone_all_repositories git repos org_name base_dir false max_workers true order fs
          = .ok (rs, fs, [])) ∧
      (∀ (repos order : List Repository) (max_workers : Option Nat),
        ∃ rs, clone_all_repositories git repos org_name base_dir true max_workers true order fs
          = .ok (rs, fs, [])) := by
  refine ⟨by simp [clone_repository, h], ?_, ?_⟩
  · intro repos order max_workers
    by_cases he : repos.isEmpty
    · exact ⟨[], by simp [clone_all_repositories, he]⟩
    · obtain ⟨rs', hrec⟩ := clone_seq_loop_dry git org_name base_dir repos [] fs [] none
      exact ⟨rs', by simp [clone_all_repositories, he, hrec]⟩
  · intro repos order max_workers
    by_cases he : repos.isEmpty
    · exact ⟨[], by simp [clone_all_repositories, he]⟩
    · obtain ⟨rs', hrec⟩ := clone_par_loop_dry git org_name base_dir order [] fs []
      exact ⟨rs', by simp [clone_all_repositories, he, hrec]⟩

/-- Witness for C4 at a concrete fresh filesystem. -/
theorem C4_dry_run_no_effects_w :
    pathExists [] (targetPath ["base"] "org" rAlpha.name) = false ∧
      (clone_repository envAllSuccess rAlpha "org" ["base"] true []
          = (.ok (rAlpha.name, true, none), [], []) ∧
        (∀ (repos order : List Repository) (max_workers : Option Nat),
          ∃ rs, clone_all_repositories envAllSuccess repos "org" ["base"] false max_workers true order []
            = .ok (rs, [], [])) ∧
        (∀ (repos order : List Repository) (max_workers : Option Nat),
          ∃ rs, clone_all_repositories envAllSuccess repos "org" ["base"] true max_workers true order []
            = .ok (rs, [], []))) :=
  ⟨by decide, C4_dry_run_no_effects envAllSuccess rAlpha "org" ["base"] [] (by decide)⟩

/-- Claim C6: classification of the subprocess result for a fresh
target in non-dry mode: non-zero exit gives the stderr-carrying failure
outcome, a timeout gives the timeout outcome, a zero exit gives
(name, true, none); and for every ok outcome whatsoever the detail field
is unset exactly when success is true. -/
theorem C6_subprocess_classification
    (git : Repository → GitBehavior) (repo : Repository) (org_name : String)
    (base_dir : Path) (fs : FS)
    (h : pathExists fs (targetPath base_dir org_name repo.name) = false) :
    (git repo = .success →
        (clone_repository git repo org_name base_dir false fs).1
          = .ok (repo.name, true, none)) ∧
      (∀ stderr, git repo = .exitErr stderr →
        (clone_repository git repo org_name base_dir false fs).1
          = .ok (repo.name, false, some ("Failed to clone " ++ repo.name ++ ": " ++ stderr))) ∧
      (git repo = .timeout →
        (clone_repository git repo org_name base_dir false fs).1
          = .ok (repo.name, false,
              some ("Clone timeout for " ++ repo.name ++ " (exceeded 5 minutes)"))) ∧
      (∀ (g : Repository → GitBehavior) (r : Repository) (o : String) (b : Path)
          (dr : Bool) (fs0 : FS) (n : String) (s : Bool) (d : Option String)
          (fs1 : FS) (tr : List Call),
        clone_repository g r o b dr fs0 = (.ok (n, s, d), fs1, tr) →
        (d = none ↔ s = true)) := by
  refine ⟨?_, ?_, ?_, ?_⟩
  · intro hg; simp [clone_repository, h, hg]
  · intro stderr hg; simp [clone_repository, h, hg]
  · intro hg; simp [clone_repository, h, hg]
  · intro g r o b dr fs0 n s d fs1 tr hcr
    simp only [clone_repository] at hcr
    split at hcr
    · simp only [Prod.mk.injEq, Except.ok.injEq] at hcr
      obtain ⟨⟨hn, hs, hd⟩, -, -⟩ := hcr
      subst hs; subst hd; simp
    · split at hcr
      · simp only [Prod.mk.injEq, Except.ok.injEq] at hcr
        obtain ⟨⟨hn, hs, hd⟩, -, -⟩ := hcr
        subst hs; subst hd; simp
      · split at hcr <;>
          first
          | (simp only [Prod.mk.injEq, Except.ok.injEq] at hcr
             obtain ⟨⟨hn, hs, hd⟩, -, -⟩ := hcr
             subst hs; subst hd; simp)
          | simp at hcr

/-- Witness for C6 at a concrete environment and fresh filesystem. -/
theorem C6_subprocess_classification_w :
    pathExists [] (targetPath ["base"] "org" rAlpha.name) = false ∧
      ((envAllSuccess rAlpha = .success →
          (clone_repository envAllSuccess rAlpha "org" ["base"] false []).1
            = .ok (rAlpha.name, true, none)) ∧
        (∀ stderr, envAllSuccess rAlpha = .exitErr stderr →
          (clone_repository envAllSuccess rAlpha "org" ["base"] false []).1
            = .ok (rAlpha.name, false,
                some ("Failed to clone " ++ rAlpha.name ++ ": " ++ stderr))) ∧
        (envAllSuccess rAlpha = .timeout →
          (clone_repository envAllSuccess rAlpha "org" ["base"] false []).1
            = .ok (rAlpha.name, false,
                some ("Clone timeout for " ++ rAlpha.name ++ " (exceeded 5 minutes)"))) ∧
        (∀ (g : Repository → GitBehavior) (r : Repository) (o : String) (b : Path)
            (dr : Bool) (fs0 : FS) (n : String) (s : Bool) (d : Option String)
            (fs1 : FS) (tr : List Call),
          clone_repository g r o b dr fs0 = (.ok (n, s, d), fs1, tr) →
          (d = none ↔ s = true))) :=
  ⟨by decide, C6_subprocess_classification envAllSuccess rAlpha "org" ["base"] [] (by decide)⟩

/-! Infrastructure lemmas about the filesystem model and the dict model. -/

lemma pathExists_iff (fs : FS) (p : Path) : pathExists fs p = true ↔ p ∈ fs := by
  simp [pathExists]

lemma pathExists_eq_false_iff (fs : FS) (p : Path) : pathExists fs p = false ↔ p ∉ fs := by
  rw [← pathExists_iff]
  simp

lemma mem_addPath (fs : FS) (p q : Path) : q ∈ addPath fs p ↔ q ∈ fs ∨ q = p := by
  by_cases hc : fs.contains p = true
  · have hp : p ∈ fs := by simpa using hc
    simp only [addPath, hc, if_true]
    constructor
    · exact Or.inl
    · rintro (h | rfl)
      · exact h
      · exact hp
  · have hc' : fs.contains p = false := by simpa using hc
    have hp' : p ∉ fs := by simpa using hc'
    simp [addPath, hc', hp']

lemma addPath_of_mem (fs : FS) (p : Path) (h : p ∈ fs) : addPath fs p = fs := by
  simp [addPath, h]

lemma mem_foldl_addPath (ps : List Path) :
    ∀ (fs : FS) (q : Path), q ∈ ps.foldl addPath fs ↔ q ∈ fs ∨ q ∈ ps := by
  induction ps with
  | nil => intro fs q; simp
  | cons p ps ih =>
    intro fs q
    rw [List.foldl_cons, ih, mem_addPath, List.mem_cons]
    tauto

lemma mem_mkdirParents (fs : FS) (p q : Path) :
    q ∈ mkdirParents fs p ↔ q ∈ fs ∨ q ∈ pathPrefixes p := by
  simp [mkdirParents, mem_foldl_addPath]

lemma foldl_addPath_of_subset (ps : List Path) :
    ∀ fs : FS, (∀ q ∈ ps, q ∈ fs) → ps.foldl addPath fs = fs := by
  induction ps with
  | nil => intro fs _; rfl
  | cons p ps ih =>
    intro fs h
    rw [List.foldl_cons, addPath_of_mem fs p (h p (List.mem_cons_self p ps))]
    exact ih fs (fun q hq => h q (List.mem_cons_of_mem p hq))

lemma mkdirParents_of_subset (fs : FS) (p : Path)
    (h : ∀ q ∈ pathPrefixes p, q ∈ fs) : mkdirParents fs p = fs :=
  foldl_addPath_of_subset (pathPrefixes p) fs h

lemma length_le_of_mem_pathPrefixes (p q : Path) (h : q ∈ pathPrefixes p) :
    q.length ≤ p.length := by
  simp only [pathPrefixes, List.mem_map, List.mem_range] at h
  obtain ⟨i, hi, rfl⟩ := h
  rw [List.length_take]
  exact Nat.min_le_right _ _

lemma targetPath_length (base : Path) (org n : String) :
    (targetPath base org n).length = base.length + 2 := by
  simp [targetPath]

lemma targetPath_inj (base : Path) (org n1 n2 : String)
    (h : targetPath base org n1 = targetPath base org n2) : n1 = n2 := by
  simpa [targetPath] using h

lemma mem_dinsert (rs : Results) (k : String) (v : Bool × Option String)
    (kv : String × (Bool × Option String)) (h : kv ∈ dinsert rs k v) :
    kv = (k, v) ∨ kv ∈ rs := by
  unfold dinsert at h
  split at h
  · obtain ⟨kv0, hkv0, hmap⟩ := List.mem_map.mp h
    by_cases hk : (kv0.1 == k) = true
    · left
      rw [← hmap]
      simp [hk]
    · right
      simp only [hk, if_neg, Bool.false_eq_true, not_false_iff, ite_false] at hmap
      rw [← hmap]
      exact hkv0
  · rcases List.mem_append.mp h with h1 | h1
    · exact Or.inr h1
    · left
      simpa using h1

lemma dinsert_key_self (rs : Results) (k : String) (v : Bool × Option String) :
    ∃ kv ∈ dinsert rs k v, kv.1 = k := by
  unfold dinsert
  split
  · next hany =>
    obtain ⟨kv0, hkv0, hp⟩ := List.any_eq_true.mp hany
    refine ⟨(k, v), ?_, rfl⟩
    exact List.mem_map.mpr ⟨kv0, hkv0, by simp [hp]⟩
  · exact ⟨(k, v), List.mem_append.mpr (Or.inr (by simp)), rfl⟩

lemma dinsert_key_mono (rs : Results) (k : String) (v : Bool × Option String)
    (n : String) (h : ∃ kv ∈ rs, kv.1 = n) :
    ∃ kv' ∈ dinsert rs k v, kv'.1 = n := by
  obtain ⟨kv, hkv, hn⟩ := h
  unfold dinsert
  split
  · by_cases hk : (kv.1 == k) = true
    · have hkn : k = n := by rw [← eq_of_beq hk, hn]
      exact ⟨(k, v), List.mem_map.mpr ⟨kv, hkv, by simp [hk]⟩, hkn⟩
    · refine ⟨kv, List.mem_map.mpr ⟨kv, hkv, ?_⟩, hn⟩
      simp only [hk, Bool.false_eq_true, not_false_iff, ite_false]
  · exact ⟨kv, List.mem_append.mpr (Or.inl hkv), hn⟩

lemma dinsert_map_fst_nodup (rs : Results) (k : String) (v : Bool × Option String)
    (h : (rs.map Prod.fst).Nodup) : ((dinsert rs k v).map Prod.fst).Nodup := by
  unfold dinsert
  split
  · have heq : (rs.map (fun kv => if kv.1 == k then (k, v) else kv)).map Prod.fst
        = rs.map Prod.fst := by
      rw [List.map_map]
      apply List.map_congr_left
      intro kv _
      by_cases hk : (kv.1 == k) = true
      · simp only [Function.comp_apply, hk, ite_true]
        exact (eq_of_beq hk).symm
      · simp only [Function.comp_apply, hk, Bool.false_eq_true, not_false_iff, ite_false]
    rw [heq]
    exact h
  · next hany =>
    have hk : k ∉ rs.map Prod.fst := by
      intro hmem
      obtain ⟨kv, hkv, hfst⟩ := List.mem_map.mp hmem
      have : rs.any (fun kv => kv.1 == k) = true :=
        List.any_eq_true.mpr ⟨kv, hkv, by simp [hfst]⟩
      exact hany this
    rw [List.map_append]
    simp only [List.map_cons, List.map_nil]
    rw [List.nodup_append]
    refine ⟨h, List.nodup_singleton k, ?_⟩
    intro a ha hb
    rw [List.mem_singleton] at hb
    subst hb
    exact hk ha

/-! Per-item lemmas about clone_repository. -/

/-- Internal restatement of the skip behaviour (also the content of the
claim about pre-existing targets). -/
lemma clone_repository_skip (git : Repository → GitBehavior) (repo : Repository)
    (org_name : String) (base_dir : Path) (dry_run : Bool) (fs : FS)
    (h : pathExists fs (targetPath base_dir org_name repo.name) = true) :
    clone_repository git repo org_name base_dir dry_run fs
      = (.ok (repo.name, false, some "Already exists"), fs, []) := by
  simp [clone_repository, h]

lemma clone_repository_fs_mono (git : Repository → GitBehavior) (repo : Repository)
    (org_name : String) (base_dir : Path) (dry_run : Bool) (fs : FS) :
    ∀ q ∈ fs, q ∈ (clone_repository git repo org_name base_dir dry_run fs).2.1 := by
  intro q hq
  by_cases hex : pathExists fs (targetPath base_dir org_name repo.name) = true
  · simp [clone_repository, hex, hq]
  · have hex' : pathExists fs (targetPath base_dir org_name repo.name) = false := by
      simpa using hex
    by_cases hdr : dry_run = true
    · simp [clone_repository, hex', hdr, hq]
    · have hdr' : dry_run = false := by simpa using hdr
      cases hg : git repo <;>
        simp [clone_repository, hex', hdr', hg, mem_addPath, mem_mkdirParents, hq]

lemma clone_repository_ok_name (git : Repository → GitBehavior) (repo : Repository)
    (org_name : String) (base_dir : Path) (dry_run : Bool) (fs : FS)
    (out : Outcome) (fs1 : FS) (tr : List Call)
    (h : clone_repository git repo org_name base_dir dry_run fs = (.ok out, fs1, tr)) :
    out.1 = repo.name := by
  simp only [clone_repository] at h
  split at h
  · simp only [Prod.mk.injEq, Except.ok.injEq] at h
    rw [← h.1]
  · split at h
    · simp only [Prod.mk.injEq, Except.ok.injEq] at h
      rw [← h.1]
    · split at h <;>
        first
        | (simp only [Prod.mk.injEq, Except.ok.injEq] at h
           rw [← h.1])
        | simp at h

lemma clone_repository_ok_of_no_fatal (git : Repository → GitBehavior)
    (repo : Repository) (org_name : String) (base_dir : Path) (dry_run : Bool)
    (fs : FS) (h : git repo ≠ GitBehavior.notFound) :
    ∃ out fs1 tr,
      clone_repository git repo org_name base_dir dry_run fs = (.ok out, fs1, tr) := by
  by_cases hex : pathExists fs (targetPath base_dir org_name repo.name) = true
  · exact ⟨(repo.name, false, some "Already exists"), fs, [],
      clone_repository_skip git repo org_name base_dir dry_run fs hex⟩
  · have hex' : pathExists fs (targetPath base_dir org_name repo.name) = false := by
      simpa using hex
    by_cases hdr : dry_run = true
    · exact ⟨(repo.name, true, none), fs, [], by simp [clone_repository, hex', hdr]⟩
    · have hdr' : dry_run = false := by simpa using hdr
      cases hg : git repo with
      | success =>
        exact ⟨(repo.name, true, none),
          addPath (mkdirParents fs (base_dir ++ [org_name]))
            (targetPath base_dir org_name repo.name),
          [(repo.clone_url, targetPath base_dir org_name repo.name)],
          by simp [clone_repository, hex', hdr', hg]⟩
      | exitErr stderr =>
        exact ⟨(repo.name, false, some ("Failed to clone " ++ repo.name ++ ": " ++ stderr)),
          mkdirParents fs (base_dir ++ [org_name]),
          [(repo.clone_url, targetPath base_dir org_name repo.name)],
          by simp [clone_repository, hex', hdr', hg]⟩
      | timeout =>
        exact ⟨(repo.name, false, some ("Clone timeout for " ++ repo.name ++ " (exceeded 5 minutes)")),
          mkdirParents fs (base_dir ++ [org_name]),
          [(repo.clone_url, targetPath base_dir org_name repo.name)],
          by simp [clone_repository, hex', hdr', hg]⟩
      | notFound => exact absurd hg h

/-! Loop lemmas. -/

lemma clone_seq_loop_fs_mono (git : Repository → GitBehavior) (org_name : String)
    (base_dir : Path) (dry_run : Bool) (l : List Repository) :
    ∀ (rs : Results) (fs : FS) (tr : List Call) (last : Option String)
      (rs' : Results) (fs' : FS) (tr' : List Call),
      clone_seq_loop git org_name base_dir dry_run l rs fs tr last = .ok (rs', fs', tr') →
      ∀ q ∈ fs, q ∈ fs' := by
  induction l with
  | nil =>
    intro rs fs tr last rs' fs' tr' h q hq
    simp only [clone_seq_loop, Except.ok.injEq, Prod.mk.injEq] at h
    obtain ⟨-, h2, -⟩ := h
    rw [← h2]
    exact hq
  | cons repo rest ih =>
    intro rs fs tr last rs' fs' tr' h q hq
    rcases hcr : clone_repository git repo org_name base_dir dry_run fs with ⟨e0, fs1, c⟩
    have hq1 : q ∈ fs1 := by
      have hm := clone_repository_fs_mono git repo org_name base_dir dry_run fs q hq
      rw [hcr] at hm
      exact hm
    simp only [clone_seq_loop] at h
    rw [hcr] at h
    cases e0 with
    | ok out =>
      obtain ⟨n, s, e⟩ := out
      exact ih _ _ _ _ _ _ _ h q hq1
    | error msg =>
      cases last with
      | some prev => exact ih _ _ _ _ _ _ _ h q hq1
      | none => simp at h

lemma clone_seq_loop_all_success (git : Repository → GitBehavior) (org_name : String)
    (base_dir : Path) (l : List Repository) :
    ∀ (rs : Results) (fs : FS) (tr : List Call) (last : Option String),
      (l.map Repository.name).Nodup →
      (∀ r ∈ l, git r = GitBehavior.success) →
      (∀ r ∈ l, targetPath base_dir org_name r.name ∉ fs) →
      ∃ rs' fs' tr',
        clone_seq_loop git org_name base_dir false l rs fs tr last = .ok (rs', fs', tr') ∧
          (∀ q ∈ fs, q ∈ fs') ∧
          (∀ r ∈ l, targetPath base_dir org_name r.name ∈ fs') := by
  induction l with
  | nil =>
    intro rs fs tr last _ _ _
    exact ⟨rs, fs, tr, rfl, fun q hq => hq, by simp⟩
  | cons repo rest ih =>
    intro rs fs tr last hnd hgit hfs
    rw [List.map_cons, List.nodup_cons] at hnd
    obtain ⟨hnotin, hnd'⟩ := hnd
    have hex : pathExists fs (targetPath base_dir org_name repo.name) = false :=
      (pathExists_eq_false_iff fs _).mpr (hfs repo (List.mem_cons_self _ _))
    have hg : git repo = .success := hgit repo (List.mem_cons_self _ _)
    have hcr : clone_repository git repo org_name base_dir false fs
        = (.ok (repo.name, true, none),
            addPath (mkdirParents fs (base_dir ++ [org_name]))
              (targetPath base_dir org_name repo.name),
            [(repo.clone_url, targetPath base_dir org_name repo.name)]) := by
      simp [clone_repository, hex, hg]
    set fs1 := addPath (mkdirParents fs (base_dir ++ [org_name]))
      (targetPath base_dir org_name repo.name) with hfs1
    have hfs' : ∀ r ∈ rest, targetPath base_dir org_name r.name ∉ fs1 := by
      intro r hr hmem
      rw [hfs1, mem_addPath, mem_mkdirParents] at hmem
      rcases hmem with (hmem | hpre) | heq
      · exact hfs r (List.mem_cons_of_mem _ hr) hmem
      · have h1 := length_le_of_mem_pathPrefixes _ _ hpre
        rw [targetPath_length] at h1
        simp only [List.length_append, List.length_cons, List.length_nil] at h1
        omega
      · have h2 := targetPath_inj _ _ _ _ heq
        exact hnotin (h2 ▸ List.mem_map_of_mem Repository.name hr)
    obtain ⟨rs', fs', tr', hrec, hmono, htgt⟩ :=
      ih (dinsert rs repo.name (true, none)) fs1
        (tr ++ [(repo.clone_url, targetPath base_dir org_name repo.name)])
        (some repo.name) hnd' (fun r hr => hgit r (List.mem_cons_of_mem _ hr)) hfs'
    refine ⟨rs', fs', tr', ?_, ?_, ?_⟩
    · simp only [clone_seq_loop]
      rw [hcr]
      exact hrec
    · intro q hq
      apply hmono
      rw [hfs1, mem_addPath, mem_mkdirParents]
      exact Or.inl (Or.inl hq)
    · intro r hr
      rcases List.mem_cons.mp hr with rfl | hr'
      · apply hmono
        rw [hfs1, mem_addPath]
        exact Or.inr rfl
      · exact htgt r hr'

lemma clone_seq_loop_all_skip (git : Repository → GitBehavior) (org_name : String)
    (base_dir : Path) (dry_run : Bool) (l : List Repository) :
    ∀ (rs : Results) (fs : FS) (tr : List Call) (last : Option String),
      (∀ r ∈ l, targetPath base_dir org_name r.name ∈ fs) →
      ∃ rs',
        clone_seq_loop git org_name base_dir dry_run l rs fs tr last = .ok (rs', fs, tr) ∧
          (∀ kv ∈ rs', kv ∈ rs ∨ kv.2 = (false, some "Already exists")) ∧
          (∀ n, (∃ kv ∈ rs, kv.1 = n) → ∃ kv' ∈ rs', kv'.1 = n) ∧
          (∀ r ∈ l, ∃ kv' ∈ rs', kv'.1 = r.name) := by
  induction l with
  | nil =>
    intro rs fs tr last _
    exact ⟨rs, rfl, fun kv hkv => Or.inl hkv, fun n h => h, by simp⟩
  | cons repo rest ih =>
    intro rs fs tr last hfs
    have hex : pathExists fs (targetPath base_dir org_name repo.name) = true :=
      (pathExists_iff fs _).mpr (hfs repo (List.mem_cons_self _ _))
    have hcr := clone_repository_skip git repo org_name base_dir dry_run fs hex
    obtain ⟨rs', hrec, hval, hkeys, hl⟩ :=
      ih (dinsert rs repo.name (false, some "Already exists")) fs tr (some repo.name)
        (fun r hr => hfs r (List.mem_cons_of_mem _ hr))
    refine ⟨rs', ?_, ?_, ?_, ?_⟩
    · simp only [clone_seq_loop]
      rw [hcr]
      simpa using hrec
    · intro kv hkv
      rcases hval kv hkv with hkv' | hskip
      · rcases mem_dinsert _ _ _ _ hkv' with heq | hmem
        · right
          rw [heq]
        · exact Or.inl hmem
      · exact Or.inr hskip
    · intro n hn
      exact hkeys n (dinsert_key_mono _ _ _ n hn)
    · intro r hr
      rcases List.mem_cons.mp hr with rfl | hr'
      · exact hkeys r.name (dinsert_key_self rs r.name _)
      · exact hl r hr'

lemma clone_par_loop_all_skip (git : Repository → GitBehavior) (org_name : String)
    (base_dir : Path) (dry_run : Bool) (l : List Repository) :
    ∀ (rs : Results) (fs : FS) (tr : List Call),
      (∀ r ∈ l, targetPath base_dir org_name r.name ∈ fs) →
      ∃ rs',
        clone_par_loop git org_name base_dir dry_run l rs fs tr = (rs', fs, tr) ∧
          (∀ kv ∈ rs', kv ∈ rs ∨ kv.2 = (false, some "Already exists")) ∧
          (∀ n, (∃ kv ∈ rs, kv.1 = n) → ∃ kv' ∈ rs', kv'.1 = n) ∧
          (∀ r ∈ l, ∃ kv' ∈ rs', kv'.1 = r.name) := by
  induction l with
  | nil =>
    intro rs fs tr _
    exact ⟨rs, rfl, fun kv hkv => Or.inl hkv, fun n h => h, by simp⟩
  | cons repo rest ih =>
    intro rs fs tr hfs
    have hex : pathExists fs (targetPath base_dir org_name repo.name) = true :=
      (pathExists_iff fs _).mpr (hfs repo (List.mem_cons_self _ _))
    have hcr := clone_repository_skip git repo org_name base_dir dry_run fs hex
    obtain ⟨rs', hrec, hval, hkeys, hl⟩ :=
      ih (dinsert rs repo.name (false, some "Already exists")) fs tr
        (fun r hr => hfs r (List.mem_cons_of_mem _ hr))
    refine ⟨rs', ?_, ?_, ?_, ?_⟩
    · simp only [clone_par_loop]
      rw [hcr]
      simpa using hrec
    · intro kv hkv
      rcases hval kv hkv with hkv' | hskip
      · rcases mem_dinsert _ _ _ _ hkv' with heq | hmem
        · right
          rw [heq]
        · exact Or.inl hmem
      · exact Or.inr hskip
    · intro n hn
      exact hkeys n (dinsert_key_mono _ _ _ n hn)
    · intro r hr
      rcases List.mem_cons.mp hr with rfl | hr'
      · exact hkeys r.name (dinsert_key_self rs r.name _)
      · exact hl r hr'

lemma clone_seq_loop_no_fatal (git : Repository → GitBehavior) (org_name : String)
    (base_dir : Path) (dry_run : Bool) (l : List Repository) :
    ∀ (rs : Results) (fs : FS) (tr : List Call) (last : Option String),
      (∀ r ∈ l, git r ≠ GitBehavior.notFound) →
      (rs.map Prod.fst).Nodup →
      ∃ rs' fs' tr',
        clone_seq_loop git org_name base_dir dry_run l rs fs tr last = .ok (rs', fs', tr') ∧
          (rs'.map Prod.fst).Nodup ∧
          (∀ n, (∃ kv ∈ rs, kv.1 = n) → ∃ kv' ∈ rs', kv'.1 = n) ∧
          (∀ r ∈ l, ∃ kv' ∈ rs', kv'.1 = r.name) := by
  induction l with
  | nil =>
    intro rs fs tr last _ hnd
    exact ⟨rs, fs, tr, rfl, hnd, fun n h => h, by simp⟩
  | cons repo rest ih =>
    intro rs fs tr last hok hnd
    obtain ⟨out, fs1, c, hcr⟩ :=
      clone_repository_ok_of_no_fatal git repo org_name base_dir dry_run fs
        (hok repo (List.mem_cons_self _ _))
    have hname := clone_repository_ok_name git repo org_name base_dir dry_run fs out fs1 c hcr
    obtain ⟨n, s, e⟩ := out
    obtain ⟨rs', fs', tr', hrec, hnd', hkeys, hl⟩ :=
      ih (dinsert rs n (s, e)) fs1 (tr ++ c) (some n)
        (fun r hr => hok r (List.mem_cons_of_mem _ hr))
        (dinsert_map_fst_nodup _ _ _ hnd)
    refine ⟨rs', fs', tr', ?_, hnd', ?_, ?_⟩
    · simp only [clone_seq_loop]
      rw [hcr]
      exact hrec
    · intro m hm
      exact hkeys m (dinsert_key_mono _ _ _ m hm)
    · intro r hr
      rcases List.mem_cons.mp hr with rfl | hr'
      · exact hkeys r.name (hname ▸ dinsert_key_self rs n (s, e))
      · exact hl r hr'

lemma clone_par_loop_keys (git : Repository → GitBehavior) (org_name : String)
    (base_dir : Path) (dry_run : Bool) (l : List Repository) :
    ∀ (rs : Results) (fs : FS) (tr : List Call),
      (rs.map Prod.fst).Nodup →
      (((clone_par_loop git org_name base_dir dry_run l rs fs tr).1.map Prod.fst).Nodup) ∧
        (∀ n, (∃ kv ∈ rs, kv.1 = n) →
          ∃ kv' ∈ (clone_par_loop git org_name base_dir dry_run l rs fs tr).1, kv'.1 = n) ∧
        (∀ r ∈ l,
          ∃ kv' ∈ (clone_par_loop git org_name base_dir dry_run l rs fs tr).1,
            kv'.1 = r.name) := by
  induction l with
  | nil =>
    intro rs fs tr hnd
    exact ⟨hnd, fun n h => h, by simp⟩
  | cons repo rest ih =>
    intro rs fs tr hnd
    rcases hcr : clone_repository git repo org_name base_dir dry_run fs with ⟨e0, fs1, c⟩
    cases e0 with
    | ok out =>
      have hname := clone_repository_ok_name git repo org_name base_dir dry_run fs out fs1 c hcr
      obtain ⟨n, s, e⟩ := out
      have hloop : clone_par_loop git org_name base_dir dry_run (repo :: rest) rs fs tr
          = clone_par_loop git org_name base_dir dry_run rest (dinsert rs n (s, e)) fs1 (tr ++ c) := by
        simp only [clone_par_loop]
        rw [hcr]
      rw [hloop]
      obtain ⟨ihnd, ihkeys, ihl⟩ :=
        ih (dinsert rs n (s, e)) fs1 (tr ++ c) (dinsert_map_fst_nodup _ _ _ hnd)
      refine ⟨ihnd, ?_, ?_⟩
      · intro m hm
        exact ihkeys m (dinsert_key_mono _ _ _ m hm)
      · intro r hr
        rcases List.mem_cons.mp hr with rfl | hr'
        · exact ihkeys r.name (hname ▸ dinsert_key_self rs n (s, e))
        · exact ihl r hr'
    | error msg =>
      have hloop : clone_par_loop git org_name base_dir dry_run (repo :: rest) rs fs tr
          = clone_par_loop git org_name base_dir dry_run rest
              (dinsert rs repo.name (false, some msg)) fs1 (tr ++ c) := by
        simp only [clone_par_loop]
        rw [hcr]
      rw [hloop]
      obtain ⟨ihnd, ihkeys, ihl⟩ :=
        ih (dinsert rs repo.name (false, some msg)) fs1 (tr ++ c)
          (dinsert_map_fst_nodup _ _ _ hnd)
      refine ⟨ihnd, ?_, ?_⟩
      · intro m hm
        exact ihkeys m (dinsert_key_mono _ _ _ m hm)
      · intro r hr
        rcases List.mem_cons.mp hr with rfl | hr'
        · exact ihkeys r.name (dinsert_key_self rs r.name (false, some msg))
        · exact ihl r hr'

lemma dget_of_all_skip (rs : Results) (n : String)
    (hall : ∀ kv ∈ rs, kv.2 = (false, some "Already exists"))
    (hmem : ∃ kv ∈ rs, kv.1 = n) :
    dget rs n = some (false, some "Already exists") := by
  obtain ⟨kv, hkv, hn⟩ := hmem
  unfold dget
  have hsome : (rs.find? (fun kv => kv.1 == n)).isSome := by
    rw [List.find?_isSome]
    exact ⟨kv, hkv, by simp [hn]⟩
  obtain ⟨kv', hkv'⟩ := Option.isSome_iff_exists.mp hsome
  rw [hkv']
  have hkv'mem := List.mem_of_find?_eq_some hkv'
  simp [hall kv' hkv'mem]

/-- Claim C7: if a first sequential batch run finds no pre-existing
targets and every clone succeeds, then a second run over the same
descriptors, organisation and base directory (sequential, or parallel
in any completion order) returns the outcome (name, false, "Already
exists") for every descriptor and leaves the filesystem unchanged. -/
theorem C7_second_run_all_skip (git : Repository → GitBehavior)
    (repos : List Repository) (org_name : String) (base_dir : Path) (fs : FS)
    (hnd : (repos.map Repository.name).Nodup)
    (hgit : ∀ r ∈ repos, git r = GitBehavior.success)
    (hfs : ∀ r ∈ repos, pathExists fs (targetPath base_dir org_name r.name) = false) :
    ∃ rs1 fs1 tr1,
      clone_all_repositories git repos org_name base_dir false none false repos fs
          = .ok (rs1, fs1, tr1) ∧
        (∃ rs2 tr2,
          clone_all_repositories git repos org_name base_dir false none false repos fs1
              = .ok (rs2, fs1, tr2) ∧
            ∀ r ∈ repos, dget rs2 r.name = some (false, some "Already exists")) ∧
        (∀ order, order.Perm repos →
          ∃ rs2 tr2,
            clone_all_repositories git repos org_name base_dir true none false order fs1
                = .ok (rs2, fs1, tr2) ∧
              ∀ r ∈ repos, dget rs2 r.name = some (false, some "Already exists")) := by
  by_cases hemp : repos.isEmpty = true
  · have hnil : repos = [] := List.isEmpty_iff.mp hemp
    subst hnil
    refine ⟨[], fs, [], rfl, ⟨[], [], rfl, by simp⟩, ?_⟩
    intro order hperm
    have hord : order = [] := hperm.eq_nil
    subst hord
    exact ⟨[], [], rfl, by simp⟩
  · have hemp' : repos.isEmpty = false := by simpa using hemp
    have hfsA : ∀ r ∈ repos,
        targetPath base_dir org_name r.name ∉ mkdirParents fs (base_dir ++ [org_name]) := by
      intro r hr hmem
      rw [mem_mkdirParents] at hmem
      rcases hmem with hmem | hpre
      · exact (pathExists_eq_false_iff fs _).mp (hfs r hr) hmem
      · have h1 := length_le_of_mem_pathPrefixes _ _ hpre
        rw [targetPath_length] at h1
        simp only [List.length_append, List.length_cons, List.length_nil] at h1
        omega
    obtain ⟨rs1, fs1, tr1, hrun1, hmono, htgt⟩ :=
      clone_seq_loop_all_success git org_name base_dir repos []
        (mkdirParents fs (base_dir ++ [org_name])) [] none hnd hgit hfsA
    have hpref : ∀ q ∈ pathPrefixes (base_dir ++ [org_name]), q ∈ fs1 := by
      intro q hq
      exact hmono q ((mem_mkdirParents fs _ q).mpr (Or.inr hq))
    have hmk1 : mkdirParents fs1 (base_dir ++ [org_name]) = fs1 :=
      mkdirParents_of_subset fs1 _ hpref
    refine ⟨rs1, fs1, tr1, ?_, ?_, ?_⟩
    · simp only [clone_all_repositories, hemp', Bool.false_eq_true, if_false, if_neg,
        Bool.not_eq_true]
      simpa using hrun1
    · obtain ⟨rs2, hrun2, hval, -, hl⟩ :=
        clone_seq_loop_all_skip git org_name base_dir false repos [] fs1 [] none htgt
      refine ⟨rs2, [], ?_, ?_⟩
      · simp only [clone_all_repositories, hemp', Bool.false_eq_true, if_false]
        rw [hmk1]
        simpa using hrun2
      · intro r hr
        refine dget_of_all_skip rs2 r.name ?_ (hl r hr)
        intro kv hkv
        rcases hval kv hkv with h0 | h0
        · cases h0
        · exact h0
    · intro order hperm
      have htgtOrd : ∀ r ∈ order, targetPath base_dir org_name r.name ∈ fs1 :=
        fun r hr => htgt r (hperm.mem_iff.mp hr)
      obtain ⟨rs2, hrun2, hval, -, hl⟩ :=
        clone_par_loop_all_skip git org_name base_dir false order [] fs1 [] htgtOrd
      refine ⟨rs2, [], ?_, ?_⟩
      · simp only [clone_all_repositories, hemp', Bool.false_eq_true, if_false]
        rw [hmk1]
        rw [hrun2]
        simp
      · intro r hr
        refine dget_of_all_skip rs2 r.name ?_ (hl r (hperm.mem_iff.mpr hr))
        intro kv hkv
        rcases hval kv hkv with h0 | h0
        · cases h0
        · exact h0

/-- Witness for C7: two distinct repositories, all clones succeed, fresh
filesystem. -/
theorem C7_second_run_all_skip_w :
    ([rAlpha, rBravo].map Repository.name).Nodup ∧
      (∀ r ∈ [rAlpha, rBravo], envAllSuccess r = GitBehavior.success) ∧
      (∀ r ∈ [rAlpha, rBravo],
        pathExists [] (targetPath ["base"] "org" r.name) = false) ∧
      (∃ rs1 fs1 tr1,
        clone_all_repositories envAllSuccess [rAlpha, rBravo] "org" ["base"]
            false none false [rAlpha, rBravo] []
            = .ok (rs1, fs1, tr1) ∧
          (∃ rs2 tr2,
            clone_all_repositories envAllSuccess [rAlpha, rBravo] "org" ["base"]
                false none false [rAlpha, rBravo] fs1
                = .ok (rs2, fs1, tr2) ∧
              ∀ r ∈ [rAlpha, rBravo],
                dget rs2 r.name = some (false, some "Already exists")) ∧
          (∀ order, order.Perm [rAlpha, rBravo] →
            ∃ rs2 tr2,
              clone_all_repositories envAllSuccess [rAlpha, rBravo] "org" ["base"]
                  true none false order fs1
                  = .ok (rs2, fs1, tr2) ∧
                ∀ r ∈ [rAlpha, rBravo],
                  dget rs2 r.name = some (false, some "Already exists"))) :=
  ⟨by decide, by decide, by decide,
    C7_second_run_all_skip envAllSuccess [rAlpha, rBravo] "org" ["base"] []
      (by decide) (by decide) (by decide)⟩

/-- Claim C9: duplicate descriptor names are not rejected; the mapping
ends up with a single entry for the duplicated name (the outcome
recorded later overwrites the earlier one, the later-completing one in
parallel mode), so the result can have strictly fewer entries than the
input.  The first two conjuncts are the general single-entry property in
sequential and parallel mode; the remaining conjuncts exhibit the
overwrite and the strict shrinkage on a concrete two-element input with
one shared name, including two parallel completion orders whose final
entry is the respective later-completing outcome. -/
theorem C9_duplicate_names_single_entry (git : Repository → GitBehavior)
    (repos : List Repository) (org_name : String) (base_dir : Path)
    (dry_run : Bool) (fs : FS) (n : String)
    (hdup : 2 ≤ (repos.map Repository.name).count n)
    (hok : ∀ r ∈ repos, git r ≠ GitBehavior.notFound) :
    (∃ rs fs' tr,
        clone_all_repositories git repos org_name base_dir false none dry_run repos fs
            = .ok (rs, fs', tr) ∧
          (rs.map Prod.fst).count n = 1) ∧
      (∀ order, order.Perm repos →
        ∃ rs fs' tr,
          clone_all_repositories git repos org_name base_dir true none dry_run order fs
              = .ok (rs, fs', tr) ∧
            (rs.map Prod.fst).count n = 1) ∧
      ((clone_all_repositories envAllSuccess [rDup1, rDup2] "org" ["base"]
            false none false [rDup1, rDup2] []).toOption.map (fun z => z.1)
          = some [("dup", (false, some "Already exists"))]) ∧
      (1 < [rDup1, rDup2].length) ∧
      ((clone_all_repositories envU1Success [rDup1, rDup2] "org" ["base"]
            true none false [rDup1, rDup2] []).toOption.map (fun z => z.1)
          = some [("dup", (false, some "Already exists"))]) ∧
      ((clone_all_repositories envU1Success [rDup1, rDup2] "org" ["base"]
            true none false [rDup2, rDup1] []).toOption.map (fun z => z.1)
          = some [("dup", (true, none))]) := by
  obtain ⟨r0, hr0, hr0n⟩ : ∃ r ∈ repos, r.name = n := by
    have hpos : 0 < (repos.map Repository.name).count n := by omega
    obtain ⟨r0, hr0, hr0n⟩ := List.mem_map.mp (List.count_pos_iff.mp hpos)
    exact ⟨r0, hr0, hr0n⟩
  have hemp : repos.isEmpty = false := by
    cases repos with
    | nil => cases hr0
    | cons a l => rfl
  refine ⟨?_, ?_, rfl, by decide, rfl, rfl⟩
  · obtain ⟨rs, fs', tr, hrun, hndk, -, hl⟩ :=
      clone_seq_loop_no_fatal git org_name base_dir dry_run repos []
        (if dry_run then fs else mkdirParents fs (base_dir ++ [org_name])) [] none
        hok (by simp)
    refine ⟨rs, fs', tr, ?_, ?_⟩
    · simp only [clone_all_repositories, hemp, Bool.false_eq_true, if_false]
      exact hrun
    · obtain ⟨kv, hkv, hkn⟩ := hl r0 hr0
      have hnmem : n ∈ rs.map Prod.fst :=
        List.mem_map.mpr ⟨kv, hkv, by rw [hkn, hr0n]⟩
      exact List.count_eq_one_of_mem hndk hnmem
  · intro order hperm
    set p := clone_par_loop git org_name base_dir dry_run order []
      (if dry_run then fs else mkdirParents fs (base_dir ++ [org_name])) [] with hp
    obtain ⟨hndk, -, hl⟩ :=
      clone_par_loop_keys git org_name base_dir dry_run order []
        (if dry_run then fs else mkdirParents fs (base_dir ++ [org_name])) [] (by simp)
    refine ⟨p.1, p.2.1, p.2.2, ?_, ?_⟩
    · simp only [clone_all_repositories, hemp, Bool.false_eq_true, if_false, if_true]
    · obtain ⟨kv, hkv, hkn⟩ := hl r0 (hperm.mem_iff.mpr hr0)
      have hnmem : n ∈ p.1.map Prod.fst :=
        List.mem_map.mpr ⟨kv, by rw [hp]; exact hkv, by rw [hkn, hr0n]⟩
      exact List.count_eq_one_of_mem (by rw [hp]; exact hndk) hnmem

/-- Witness for C9 on two descriptors sharing the name dup. -/
theorem C9_duplicate_names_single_entry_w :
    2 ≤ ([rDup1, rDup2].map Repository.name).count "dup" ∧
      (∀ r ∈ [rDup1, rDup2], envU1Success r ≠ GitBehavior.notFound) ∧
      ((∃ rs fs' tr,
          clone_all_repositories envU1Success [rDup1, rDup2] "org" ["base"]
              false none false [rDup1, rDup2] []
              = .ok (rs, fs', tr) ∧
            (rs.map Prod.fst).count "dup" = 1) ∧
        (∀ order, order.Perm [rDup1, rDup2] →
          ∃ rs fs' tr,
            clone_all_repositories envU1Success [rDup1, rDup2] "org" ["base"]
                true none false order []
                = .ok (rs, fs', tr) ∧
              (rs.map Prod.fst).count "dup" = 1) ∧
        ((clone_all_repositories envAllSuccess [rDup1, rDup2] "org" ["base"]
              false none false [rDup1, rDup2] []).toOption.map (fun z => z.1)
            = some [("dup", (false, some "Already exists"))]) ∧
        (1 < [rDup1, rDup2].length) ∧
        ((clone_all_repositories envU1Success [rDup1, rDup2] "org" ["base"]
              true none false [rDup1, rDup2] []).toOption.map (fun z => z.1)
            = some [("dup", (false, some "Already exists"))]) ∧
        ((clone_all_repositories envU1Success [rDup1, rDup2] "org" ["base"]
              true none false [rDup2, rDup1] []).toOption.map (fun z => z.1)
            = some [("dup", (true, none))])) :=
  ⟨by decide, by decide,
    C9_duplicate_names_single_entry envU1Success [rDup1, rDup2] "org" ["base"]
      false [] "dup" (by decide) (by decide)⟩

end GithubOrgCloner
